import Mathlib

/-!
Verification of the feast entity-specification decoder
(`go/internal/feast/model/entity.go`, function `NewEntityFromProto`).

Go maps are embedded as association lists `List (String × α)` whose keys are
unique (a Go map cannot hold a duplicate key); `mapAssign` is the Go map
assignment `m[k] = v` (overwrite when present, append when fresh) and
`mapLookup` is the Go map read `m[k]`.
-/

set_option maxHeartbeats 1000000

namespace Feast

/-- Modelled from the spec: the enumerated scalar value-type tag carried by the
externally defined specification message (`types.ValueType_Enum`, not under
`src/`): "int32/int64/string/bytes/double/float/bool and array variants",
with a zero value `UNSPECIFIED` used by the concrete scenarios. -/
inductive ValueType_Enum where
  | UNSPECIFIED
  | BYTES
  | STRING
  | INT32
  | INT64
  | DOUBLE
  | FLOAT
  | BOOL
  | BYTES_LIST
  | STRING_LIST
  | INT32_LIST
  | INT64_LIST
  | DOUBLE_LIST
  | FLOAT_LIST
  | BOOL_LIST
  deriving DecidableEq, Repr

/-- Modelled from the spec: one entry of the new `join_keys` mapping,
`{ value_type: ScalarTypeEnum }` (the proto message is not under `src/`). -/
structure JoinKeySpec where
  ValueType : ValueType_Enum
  deriving DecidableEq, Repr

/-- Modelled from the spec: the serialized entity specification message
(`core.EntitySpecV2`, not under `src/`) with the four logical fields the
decoder reads — `name`, `join_key` (deprecated), `value_type` (deprecated),
`join_keys` (mapping, embedded as an association list with unique keys). -/
structure EntitySpecV2 where
  Name : String
  JoinKey : String
  ValueType : ValueType_Enum
  JoinKeys : List (String × JoinKeySpec)
  deriving DecidableEq, Repr

/-- Modelled from the spec: the wrapper message `core.Entity`, of which the
decoder reads only the `Spec` field. -/
structure CoreEntity where
  Spec : EntitySpecV2
  deriving DecidableEq, Repr

/-- The runtime Entity model (`model.Entity` in `entity.go`). -/
structure Entity where
  Name : String
  JoinKey : String
  JoinKeys : List (String × ValueType_Enum)
  deriving DecidableEq, Repr

/-- Go map assignment `m[k] = v`: overwrite the entry when the key is present,
append a fresh entry otherwise. -/
def mapAssign {α : Type} (m : List (String × α)) (k : String) (v : α) :
    List (String × α) :=
  match m with
  | [] => [(k, v)]
  | (k', v') :: rest =>
      if k' = k then (k, v) :: rest else (k', v') :: mapAssign rest k v

/-- Go map read `m[k]`, returning `none` when the key is absent. -/
def mapLookup {α : Type} (k : String) : List (String × α) → Option α
  | [] => none
  | (k', v) :: rest => if k' = k then some v else mapLookup k rest

/-- The key list of an embedded Go map. -/
def mapKeys {α : Type} (m : List (String × α)) : List String :=
  m.map Prod.fst

/-- `NewEntityFromProto` from `entity.go`, translated clause by clause:
copy `Name` and the deprecated `JoinKey`, allocate an empty `JoinKeys` map;
if the new `join_keys` mapping is non-empty, copy it entry by entry taking
each entry's `ValueType`; otherwise assign the single legacy pair. -/
def NewEntityFromProto (proto : CoreEntity) : Entity :=
  let entity : Entity :=
    { Name := proto.Spec.Name
      JoinKey := proto.Spec.JoinKey
      JoinKeys := [] }
  if proto.Spec.JoinKeys.length > 0 then
    { entity with
        JoinKeys :=
          proto.Spec.JoinKeys.foldl
            (fun m kv => mapAssign m kv.1 kv.2.ValueType) entity.JoinKeys }
  else
    { entity with
        JoinKeys := mapAssign entity.JoinKeys proto.Spec.JoinKey proto.Spec.ValueType }

/-- The specification's `join_keys` mapping viewed as a join-key-to-type map,
each entry's declared value type taken verbatim. -/
def specJoinKeysMap (s : EntitySpecV2) : List (String × ValueType_Enum) :=
  s.JoinKeys.map (fun kv => (kv.1, kv.2.ValueType))

theorem mapAssign_ne_nil {α : Type} (m : List (String × α)) (k : String) (v : α) :
    mapAssign m k v ≠ [] := by
  cases m with
  | nil => simp [mapAssign]
  | cons hd tl =>
      obtain ⟨k', v'⟩ := hd
      simp only [mapAssign]
      split <;> simp

theorem foldl_mapAssign_ne_nil {α : Type} (l : List (String × α))
    (m : List (String × α)) (hm : m ≠ []) :
    l.foldl (fun acc kv => mapAssign acc kv.1 kv.2) m ≠ [] := by
  induction l generalizing m with
  | nil => simpa using hm
  | cons hd tl ih =>
      simp only [List.foldl_cons]
      exact ih _ (mapAssign_ne_nil _ _ _)

theorem mapAssign_fresh {α : Type} (m : List (String × α)) (k : String) (v : α)
    (hk : k ∉ mapKeys m) : mapAssign m k v = m ++ [(k, v)] := by
  induction m with
  | nil => simp [mapAssign]
  | cons hd tl ih =>
      obtain ⟨k', v'⟩ := hd
      simp only [mapKeys, List.map_cons, List.mem_cons] at hk
      push_neg at hk
      simp only [mapAssign]
      rw [if_neg (by exact fun h => hk.1 h.symm)]
      simp [ih (by simpa [mapKeys] using hk.2)]

theorem foldl_mapAssign_of_nodup {α : Type} (l : List (String × α)) :
    (mapKeys l).Nodup →
    ∀ m : List (String × α), (∀ a ∈ mapKeys l, a ∉ mapKeys m) →
      l.foldl (fun acc kv => mapAssign acc kv.1 kv.2) m = m ++ l := by
  induction l with
  | nil => intro _ m _; simp
  | cons hd tl ih =>
      intro hnd m hdisj
      obtain ⟨k, v⟩ := hd
      simp only [mapKeys, List.map_cons, List.nodup_cons] at hnd
      have hkm : k ∉ mapKeys m := hdisj k (by simp [mapKeys])
      simp only [List.foldl_cons]
      rw [mapAssign_fresh m k v hkm]
      rw [ih hnd.2 (m ++ [(k, v)]) ?_]
      · simp
      · intro a ha
        have hm : a ∉ mapKeys m := hdisj a (by simp [mapKeys] at ha ⊢; right; exact ha)
        have hak : a ≠ k := by
          intro h
          exact hnd.1 (h ▸ ha)
        have : mapKeys (m ++ [(k, v)]) = mapKeys m ++ [k] := by simp [mapKeys]
        rw [this]
        simp only [List.mem_append, List.mem_singleton]
        rintro (h | h)
        · exact hm h
        · exact hak h

theorem mapKeys_specJoinKeysMap (s : EntitySpecV2) :
    mapKeys (specJoinKeysMap s) = mapKeys s.JoinKeys := by
  simp [mapKeys, specJoinKeysMap, List.map_map]

/-- New-format branch: when the specification's `join_keys` mapping is
non-empty (with unique keys, as any Go map has), the decoder's `JoinKeys`
is exactly that mapping with each entry's declared value type. -/
theorem decode_joinKeys_of_newFormat (s : CoreEntity)
    (h : s.Spec.JoinKeys ≠ []) (hnd : (mapKeys s.Spec.JoinKeys).Nodup) :
    (NewEntityFromProto s).JoinKeys = specJoinKeysMap s.Spec := by
  have hlen : s.Spec.JoinKeys.length > 0 := List.length_pos.mpr h
  simp only [NewEntityFromProto, if_pos hlen]
  have hfold :
      s.Spec.JoinKeys.foldl (fun m kv => mapAssign m kv.1 kv.2.ValueType) [] =
        (specJoinKeysMap s.Spec).foldl (fun m kv => mapAssign m kv.1 kv.2) [] := by
    rw [specJoinKeysMap, List.foldl_map]
  rw [hfold,
    foldl_mapAssign_of_nodup (specJoinKeysMap s.Spec)
      (by rw [mapKeys_specJoinKeysMap]; exact hnd) [] (by simp [mapKeys]),
    List.nil_append]

/-- Legacy branch: when the specification's `join_keys` mapping is empty, the
decoder's `JoinKeys` is the single entry `join_key ↦ value_type`, both taken
verbatim from the deprecated fields. -/
theorem decode_joinKeys_of_legacy (s : CoreEntity) (h : s.Spec.JoinKeys = []) :
    (NewEntityFromProto s).JoinKeys = [(s.Spec.JoinKey, s.Spec.ValueType)] := by
  simp only [NewEntityFromProto, h]
  simp [mapAssign]

theorem decode_Name (s : CoreEntity) : (NewEntityFromProto s).Name = s.Spec.Name := by
  simp only [NewEntityFromProto]
  split <;> rfl

theorem decode_JoinKey (s : CoreEntity) :
    (NewEntityFromProto s).JoinKey = s.Spec.JoinKey := by
  simp only [NewEntityFromProto]
  split <;> rfl

theorem foldl_assignValueType_ne_nil (l : List (String × JoinKeySpec))
    (m : List (String × ValueType_Enum)) (hm : m ≠ []) :
    l.foldl (fun acc kv => mapAssign acc kv.1 kv.2.ValueType) m ≠ [] := by
  induction l generalizing m with
  | nil => simpa using hm
  | cons hd tl ih =>
      simp only [List.foldl_cons]
      exact ih _ (mapAssign_ne_nil _ _ _)

theorem decode_joinKeys_ne_nil (s : CoreEntity) :
    (NewEntityFromProto s).JoinKeys ≠ [] := by
  simp only [NewEntityFromProto]
  split
  · rename_i hlen
    obtain ⟨hd, tl, hcons⟩ := List.exists_cons_of_ne_nil (List.length_pos.mp hlen)
    simp only [hcons, List.foldl_cons]
    exact foldl_assignValueType_ne_nil _ _ (mapAssign_ne_nil _ _ _)
  · exact mapAssign_ne_nil _ _ _

theorem mapLookup_map_value (sp : EntitySpecV2) (k : String) :
    mapLookup k (specJoinKeysMap sp) =
      (mapLookup k sp.JoinKeys).map JoinKeySpec.ValueType := by
  rw [specJoinKeysMap]
  induction sp.JoinKeys with
  | nil => simp [mapLookup]
  | cons hd tl ih =>
      obtain ⟨k', js⟩ := hd
      simp only [List.map_cons, mapLookup]
      split <;> simp [ih]

theorem mapLookup_eq_none_iff {α : Type} (k : String) (l : List (String × α)) :
    mapLookup k l = none ↔ k ∉ mapKeys l := by
  induction l with
  | nil => simp [mapLookup, mapKeys]
  | cons hd tl ih =>
      obtain ⟨k', v⟩ := hd
      by_cases h : k' = k
      · subst h
        simp [mapLookup, mapKeys]
      · simp only [mapLookup, if_neg h]
        rw [ih]
        simp only [mapKeys, List.map_cons, List.mem_cons, not_or]
        constructor
        · intro hk
          exact ⟨fun he => h he.symm, hk⟩
        · intro hk
          exact hk.2

theorem mem_of_mapLookup_eq_some {α : Type} {k : String} {v : α}
    {l : List (String × α)} (h : mapLookup k l = some v) : (k, v) ∈ l := by
  induction l with
  | nil => simp [mapLookup] at h
  | cons hd tl ih =>
      obtain ⟨k', v'⟩ := hd
      simp only [mapLookup] at h
      split at h
      · rename_i hk
        injection h with hv
        exact List.mem_cons.mpr (Or.inl (by rw [hk, hv]))
      · exact List.mem_cons_of_mem _ (ih h)

theorem mapLookup_eq_some_of_mem {α : Type} {k : String} {v : α}
    {l : List (String × α)} (hnd : (mapKeys l).Nodup) (h : (k, v) ∈ l) :
    mapLookup k l = some v := by
  induction l with
  | nil => simp at h
  | cons hd tl ih =>
      obtain ⟨k', v'⟩ := hd
      simp only [mapKeys, List.map_cons, List.nodup_cons] at hnd
      simp only [List.mem_cons] at h
      rcases h with h | h
      · injection h with h1 h2
        simp [mapLookup, h1, h2]
      · have hk : k' ≠ k := by
          intro he
          apply hnd.1
          rw [he]
          exact List.mem_map.mpr ⟨(k, v), h, rfl⟩
        simp only [mapLookup, if_neg hk]
        exact ih hnd.2 h

theorem mapLookup_perm {α : Type} {l₁ l₂ : List (String × α)}
    (hp : l₁.Perm l₂) (hnd : (mapKeys l₁).Nodup) (k : String) :
    mapLookup k l₁ = mapLookup k l₂ := by
  have hnd₂ : (mapKeys l₂).Nodup := (hp.map Prod.fst).nodup_iff.mp hnd
  cases hv : mapLookup k l₁ with
  | some v =>
      exact (mapLookup_eq_some_of_mem hnd₂ (hp.mem_iff.mp
        (mem_of_mapLookup_eq_some hv))).symm
  | none =>
      have hk : k ∉ mapKeys l₂ := by
        intro hmem
        exact (mapLookup_eq_none_iff k l₁).mp hv
          ((hp.map Prod.fst).mem_iff.mpr hmem)
      exact ((mapLookup_eq_none_iff k l₂).mpr hk).symm

/-- Extensionality of the decoder: its output is a function of the four
logical fields alone, the join-keys mapping compared as a mapping (lookup
equality), not as a particular entry order. -/
theorem decode_ext (s₁ s₂ : CoreEntity)
    (hn : s₁.Spec.Name = s₂.Spec.Name)
    (hjk : s₁.Spec.JoinKey = s₂.Spec.JoinKey)
    (hvt : s₁.Spec.ValueType = s₂.Spec.ValueType)
    (hmap : ∀ k, mapLookup k s₁.Spec.JoinKeys = mapLookup k s₂.Spec.JoinKeys)
    (hnd₁ : (mapKeys s₁.Spec.JoinKeys).Nodup)
    (hnd₂ : (mapKeys s₂.Spec.JoinKeys).Nodup) :
    (NewEntityFromProto s₁).Name = (NewEntityFromProto s₂).Name ∧
    (NewEntityFromProto s₁).JoinKey = (NewEntityFromProto s₂).JoinKey ∧
    ∀ k, mapLookup k (NewEntityFromProto s₁).JoinKeys =
      mapLookup k (NewEntityFromProto s₂).JoinKeys := by
  refine ⟨by rw [decode_Name, decode_Name, hn],
    by rw [decode_JoinKey, decode_JoinKey, hjk], ?_⟩
  intro k
  by_cases h1 : s₁.Spec.JoinKeys = []
  · have h2 : s₂.Spec.JoinKeys = [] := by
      by_contra h2
      obtain ⟨⟨a, js⟩, t, hc⟩ := List.exists_cons_of_ne_nil h2
      have ha := hmap a
      rw [h1, hc] at ha
      simp [mapLookup] at ha
    rw [decode_joinKeys_of_legacy s₁ h1, decode_joinKeys_of_legacy s₂ h2, hjk, hvt]
  · have h2 : s₂.Spec.JoinKeys ≠ [] := by
      intro h2
      obtain ⟨⟨a, js⟩, t, hc⟩ := List.exists_cons_of_ne_nil h1
      have ha := hmap a
      rw [h2, hc] at ha
      simp [mapLookup] at ha
    rw [decode_joinKeys_of_newFormat s₁ h1 hnd₁,
      decode_joinKeys_of_newFormat s₂ h2 hnd₂,
      mapLookup_map_value, mapLookup_map_value, hmap]

/-- One iteration of the Go loop body, with the specification being read
threaded through explicitly: the step writes only into the entity under
construction and passes the specification along untouched. -/
def decodeStep (st : EntitySpecV2 × Entity) (kv : String × JoinKeySpec) :
    EntitySpecV2 × Entity :=
  (st.1, { st.2 with JoinKeys := mapAssign st.2.JoinKeys kv.1 kv.2.ValueType })

/-- State-passing rendering of `NewEntityFromProto`: the specification read by
the call is carried next to the entity under construction through every
step, so the frame property (the input specification is never written) can
be stated. Every write performed by the Go function targets the freshly
allocated entity; this definition mirrors that, step for step. -/
def NewEntityFromProtoTraced (proto : CoreEntity) : EntitySpecV2 × Entity :=
  let entity : Entity :=
    { Name := proto.Spec.Name
      JoinKey := proto.Spec.JoinKey
      JoinKeys := [] }
  if proto.Spec.JoinKeys.length > 0 then
    proto.Spec.JoinKeys.foldl decodeStep (proto.Spec, entity)
  else
    (proto.Spec,
      { entity with
          JoinKeys := mapAssign entity.JoinKeys proto.Spec.JoinKey proto.Spec.ValueType })

theorem foldl_decodeStep_fst (l : List (String × JoinKeySpec))
    (sp : EntitySpecV2) (e : Entity) : (l.foldl decodeStep (sp, e)).1 = sp := by
  induction l generalizing e with
  | nil => rfl
  | cons hd tl ih =>
      simp only [List.foldl_cons, decodeStep]
      exact ih _

theorem foldl_decodeStep_snd (l : List (String × JoinKeySpec))
    (sp : EntitySpecV2) (e : Entity) :
    (l.foldl decodeStep (sp, e)).2 =
      { e with
          JoinKeys := l.foldl (fun m kv => mapAssign m kv.1 kv.2.ValueType) e.JoinKeys } := by
  induction l generalizing e with
  | nil => rfl
  | cons hd tl ih =>
      simp only [List.foldl_cons, decodeStep]
      rw [ih]

/-- Claim C1 counterexample: on the all-empty specification
`{name: "", join_key: "", value_type: UNSPECIFIED, join_keys: {}}` the
decoder does not fail with `InvalidSpecification` — it constructs and
returns an Entity model (with `joinKeys` mapping `""` to `UNSPECIFIED`),
contrary to the claim that no Entity model is constructed. -/
theorem claim_C1_counterexample :
    NewEntityFromProto ⟨⟨"", "", ValueType_Enum.UNSPECIFIED, []⟩⟩ =
      ⟨"", "", [("", ValueType_Enum.UNSPECIFIED)]⟩ := by
  rfl

/-- Claim C1 (corrected): for every specification whose name is empty, or in
which both the legacy join-key name and the new join-keys mapping are
empty/absent, the decoder does not fail: it still constructs an Entity model
whose name copies the specification's and whose `joinKeys` is non-empty (it
has no error path at all). -/
theorem claim_C1_amended (s : CoreEntity)
    (h : s.Spec.Name = "" ∨ (s.Spec.JoinKey = "" ∧ s.Spec.JoinKeys = [])) :
    (NewEntityFromProto s).Name = s.Spec.Name ∧
      (NewEntityFromProto s).JoinKeys ≠ [] :=
  ⟨decode_Name s, decode_joinKeys_ne_nil s⟩

theorem claim_C1_witness :
    ((("" : String) = "" ∨ (("x" : String) = "" ∧ ([("k", (⟨ValueType_Enum.STRING⟩ : JoinKeySpec))] : List (String × JoinKeySpec)) = [])) ∧
      ((NewEntityFromProto ⟨⟨"", "x", ValueType_Enum.INT64, [("k", ⟨ValueType_Enum.STRING⟩)]⟩⟩).Name = "" ∧
        (NewEntityFromProto ⟨⟨"", "x", ValueType_Enum.INT64, [("k", ⟨ValueType_Enum.STRING⟩)]⟩⟩).JoinKeys ≠ [])) :=
  ⟨Or.inl rfl,
    claim_C1_amended ⟨⟨"", "x", ValueType_Enum.INT64, [("k", ⟨ValueType_Enum.STRING⟩)]⟩⟩ (Or.inl rfl)⟩

/-- Claim C2: for every specification whose new `join_keys` mapping is
non-empty (its keys unique, as the keys of any Go map are), the decoder's
`JoinKeys` equals the specification's mapping exactly — same keys, each key
mapped to its declared value type — regardless of the deprecated `join_key`
and `value_type` fields, including when the legacy name collides with a
mapping key. -/
theorem claim_C2 (s : CoreEntity) (h : s.Spec.JoinKeys ≠ [])
    (hnd : (mapKeys s.Spec.JoinKeys).Nodup) :
    (NewEntityFromProto s).JoinKeys = specJoinKeysMap s.Spec :=
  decode_joinKeys_of_newFormat s h hnd

theorem claim_C2_witness :
    (([("driver_id", (⟨ValueType_Enum.INT64⟩ : JoinKeySpec)), ("rider_id", ⟨ValueType_Enum.STRING⟩)] : List (String × JoinKeySpec)) ≠ [] ∧
      (mapKeys ([("driver_id", (⟨ValueType_Enum.INT64⟩ : JoinKeySpec)), ("rider_id", ⟨ValueType_Enum.STRING⟩)] : List (String × JoinKeySpec))).Nodup) ∧
      (NewEntityFromProto ⟨⟨"trip", "driver_id", ValueType_Enum.STRING, [("driver_id", ⟨ValueType_Enum.INT64⟩), ("rider_id", ⟨ValueType_Enum.STRING⟩)]⟩⟩).JoinKeys =
        specJoinKeysMap ⟨"trip", "driver_id", ValueType_Enum.STRING, [("driver_id", ⟨ValueType_Enum.INT64⟩), ("rider_id", ⟨ValueType_Enum.STRING⟩)]⟩ :=
  ⟨⟨by decide, by decide⟩,
    claim_C2 ⟨⟨"trip", "driver_id", ValueType_Enum.STRING, [("driver_id", ⟨ValueType_Enum.INT64⟩), ("rider_id", ⟨ValueType_Enum.STRING⟩)]⟩⟩
      (by decide) (by decide)⟩

/-- Claim C3: for every specification whose new `join_keys` mapping is empty
and whose legacy `join_key`/`value_type` pair is non-empty, the decoder's
`JoinKeys` is exactly the single-entry mapping from the legacy `join_key`
name to the legacy `value_type` field, both taken verbatim. -/
theorem claim_C3 (s : CoreEntity) (hempty : s.Spec.JoinKeys = [])
    (hjk : s.Spec.JoinKey ≠ "") :
    (NewEntityFromProto s).JoinKeys = [(s.Spec.JoinKey, s.Spec.ValueType)] :=
  decode_joinKeys_of_legacy s hempty

theorem claim_C3_witness :
    (([] : List (String × JoinKeySpec)) = [] ∧ ("driver_id" : String) ≠ "") ∧
      (NewEntityFromProto ⟨⟨"driver", "driver_id", ValueType_Enum.INT64, []⟩⟩).JoinKeys =
        [("driver_id", ValueType_Enum.INT64)] :=
  ⟨⟨rfl, by decide⟩,
    claim_C3 ⟨⟨"driver", "driver_id", ValueType_Enum.INT64, []⟩⟩ rfl (by decide)⟩

/-- Claim C4: decoding always succeeds, and the returned Entity model's
`JoinKeys` mapping is never empty — it holds at least one join key with a
resolved value type. -/
theorem claim_C4 (s : CoreEntity) : (NewEntityFromProto s).JoinKeys ≠ [] :=
  decode_joinKeys_ne_nil s

/-- Claim C5: for every specification, the returned Entity model's name
equals the specification's name character for character — the field is
copied verbatim, with no normalization, casing change, or trimming. -/
theorem claim_C5 (s : CoreEntity) : (NewEntityFromProto s).Name = s.Spec.Name :=
  decode_Name s

/-- Claim C6: `NewEntityFromProto` is total and has no error path: for every
input, including the one with empty name, empty legacy join key and empty
join-keys mapping, it returns an Entity; in that all-empty case the returned
`JoinKeys` is the single entry mapping `""` to the specification's
`value_type`. -/
theorem claim_C6 (s : CoreEntity) (hname : s.Spec.Name = "")
    (hjk : s.Spec.JoinKey = "") (hmap : s.Spec.JoinKeys = []) :
    NewEntityFromProto s = ⟨"", "", [("", s.Spec.ValueType)]⟩ := by
  obtain ⟨⟨n, jk, vt, jks⟩⟩ := s
  have hn : n = "" := hname
  have hj : jk = "" := hjk
  have hm : jks = [] := hmap
  subst hn
  subst hj
  subst hm
  rfl

theorem claim_C6_witness :
    NewEntityFromProto ⟨⟨"", "", ValueType_Enum.BOOL, []⟩⟩ =
      ⟨"", "", [("", ValueType_Enum.BOOL)]⟩ :=
  claim_C6 ⟨⟨"", "", ValueType_Enum.BOOL, []⟩⟩ rfl rfl rfl

/-- Claim C7 counterexample: the specification
`{name: "", join_key: "customer_id", value_type: INT64, join_keys: {}}` is
invalid (empty name), yet retrying it does not "always fail" — the decoder
never fails on it at all: it returns an Entity model. -/
theorem claim_C7_counterexample :
    NewEntityFromProto ⟨⟨"", "customer_id", ValueType_Enum.INT64, []⟩⟩ =
      ⟨"", "customer_id", [("customer_id", ValueType_Enum.INT64)]⟩ := by
  rfl

/-- Claim C7 (corrected): decoding is deterministic — decoding the same
specification twice yields equal Entity model values (value equality on
name, deprecated join key, and `joinKeys` compared as a mapping), even when
the two calls iterate the specification's `join_keys` map in different
orders; and decoding any specification, an invalid one included, without
modification always yields that same identical result (it never fails,
rather than always failing identically). -/
theorem claim_C7_amended (s : CoreEntity) (order : List (String × JoinKeySpec))
    (hperm : s.Spec.JoinKeys.Perm order)
    (hnd : (mapKeys s.Spec.JoinKeys).Nodup) :
    (NewEntityFromProto s).Name =
        (NewEntityFromProto ⟨{ s.Spec with JoinKeys := order }⟩).Name ∧
      (NewEntityFromProto s).JoinKey =
        (NewEntityFromProto ⟨{ s.Spec with JoinKeys := order }⟩).JoinKey ∧
      ∀ k, mapLookup k (NewEntityFromProto s).JoinKeys =
        mapLookup k (NewEntityFromProto ⟨{ s.Spec with JoinKeys := order }⟩).JoinKeys := by
  apply decode_ext
  · rfl
  · rfl
  · rfl
  · exact fun k => mapLookup_perm hperm hnd k
  · exact hnd
  · exact (hperm.map Prod.fst).nodup_iff.mp hnd

theorem claim_C7_witness :
    (([("a", (⟨ValueType_Enum.INT32⟩ : JoinKeySpec)), ("b", ⟨ValueType_Enum.BOOL⟩)] : List (String × JoinKeySpec)).Perm
        [("b", ⟨ValueType_Enum.BOOL⟩), ("a", ⟨ValueType_Enum.INT32⟩)] ∧
      (mapKeys ([("a", (⟨ValueType_Enum.INT32⟩ : JoinKeySpec)), ("b", ⟨ValueType_Enum.BOOL⟩)] : List (String × JoinKeySpec))).Nodup) ∧
      ((NewEntityFromProto ⟨⟨"trip", "", ValueType_Enum.UNSPECIFIED, [("a", ⟨ValueType_Enum.INT32⟩), ("b", ⟨ValueType_Enum.BOOL⟩)]⟩⟩).Name =
          (NewEntityFromProto ⟨{ (⟨"trip", "", ValueType_Enum.UNSPECIFIED, [("a", ⟨ValueType_Enum.INT32⟩), ("b", ⟨ValueType_Enum.BOOL⟩)]⟩ : EntitySpecV2) with JoinKeys := [("b", ⟨ValueType_Enum.BOOL⟩), ("a", ⟨ValueType_Enum.INT32⟩)] }⟩).Name ∧
        (NewEntityFromProto ⟨⟨"trip", "", ValueType_Enum.UNSPECIFIED, [("a", ⟨ValueType_Enum.INT32⟩), ("b", ⟨ValueType_Enum.BOOL⟩)]⟩⟩).JoinKey =
          (NewEntityFromProto ⟨{ (⟨"trip", "", ValueType_Enum.UNSPECIFIED, [("a", ⟨ValueType_Enum.INT32⟩), ("b", ⟨ValueType_Enum.BOOL⟩)]⟩ : EntitySpecV2) with JoinKeys := [("b", ⟨ValueType_Enum.BOOL⟩), ("a", ⟨ValueType_Enum.INT32⟩)] }⟩).JoinKey ∧
        ∀ k, mapLookup k (NewEntityFromProto ⟨⟨"trip", "", ValueType_Enum.UNSPECIFIED, [("a", ⟨ValueType_Enum.INT32⟩), ("b", ⟨ValueType_Enum.BOOL⟩)]⟩⟩).JoinKeys =
          mapLookup k (NewEntityFromProto ⟨{ (⟨"trip", "", ValueType_Enum.UNSPECIFIED, [("a", ⟨ValueType_Enum.INT32⟩), ("b", ⟨ValueType_Enum.BOOL⟩)]⟩ : EntitySpecV2) with JoinKeys := [("b", ⟨ValueType_Enum.BOOL⟩), ("a", ⟨ValueType_Enum.INT32⟩)] }⟩).JoinKeys) :=
  ⟨⟨by decide, by decide⟩,
    claim_C7_amended
      ⟨⟨"trip", "", ValueType_Enum.UNSPECIFIED, [("a", ⟨ValueType_Enum.INT32⟩), ("b", ⟨ValueType_Enum.BOOL⟩)]⟩⟩
      [("b", ⟨ValueType_Enum.BOOL⟩), ("a", ⟨ValueType_Enum.INT32⟩)]
      (by decide) (by decide)⟩

/-- Claim C8: the decoder's output depends only on the four logical fields
`name`, `join_key`, `value_type` and `join_keys` of the specification: any
two specifications that agree on those four fields (the `join_keys` mapping
compared as a mapping) decode to equal Entity models (value equality on
name, deprecated join key, and `joinKeys` as a mapping). -/
theorem claim_C8 (s₁ s₂ : CoreEntity)
    (hn : s₁.Spec.Name = s₂.Spec.Name)
    (hjk : s₁.Spec.JoinKey = s₂.Spec.JoinKey)
    (hvt : s₁.Spec.ValueType = s₂.Spec.ValueType)
    (hmap : ∀ k, mapLookup k s₁.Spec.JoinKeys = mapLookup k s₂.Spec.JoinKeys)
    (hnd₁ : (mapKeys s₁.Spec.JoinKeys).Nodup)
    (hnd₂ : (mapKeys s₂.Spec.JoinKeys).Nodup) :
    (NewEntityFromProto s₁).Name = (NewEntityFromProto s₂).Name ∧
      (NewEntityFromProto s₁).JoinKey = (NewEntityFromProto s₂).JoinKey ∧
      ∀ k, mapLookup k (NewEntityFromProto s₁).JoinKeys =
        mapLookup k (NewEntityFromProto s₂).JoinKeys :=
  decode_ext s₁ s₂ hn hjk hvt hmap hnd₁ hnd₂

theorem claim_C8_witness :
    ((∀ k, mapLookup k ([("x", (⟨ValueType_Enum.INT64⟩ : JoinKeySpec)), ("y", ⟨ValueType_Enum.STRING⟩)] : List (String × JoinKeySpec)) =
        mapLookup k ([("y", (⟨ValueType_Enum.STRING⟩ : JoinKeySpec)), ("x", ⟨ValueType_Enum.INT64⟩)] : List (String × JoinKeySpec)))) ∧
      ((NewEntityFromProto ⟨⟨"u", "j", ValueType_Enum.BYTES, [("x", ⟨ValueType_Enum.INT64⟩), ("y", ⟨ValueType_Enum.STRING⟩)]⟩⟩).Name =
          (NewEntityFromProto ⟨⟨"u", "j", ValueType_Enum.BYTES, [("y", ⟨ValueType_Enum.STRING⟩), ("x", ⟨ValueType_Enum.INT64⟩)]⟩⟩).Name ∧
        (NewEntityFromProto ⟨⟨"u", "j", ValueType_Enum.BYTES, [("x", ⟨ValueType_Enum.INT64⟩), ("y", ⟨ValueType_Enum.STRING⟩)]⟩⟩).JoinKey =
          (NewEntityFromProto ⟨⟨"u", "j", ValueType_Enum.BYTES, [("y", ⟨ValueType_Enum.STRING⟩), ("x", ⟨ValueType_Enum.INT64⟩)]⟩⟩).JoinKey ∧
        ∀ k, mapLookup k (NewEntityFromProto ⟨⟨"u", "j", ValueType_Enum.BYTES, [("x", ⟨ValueType_Enum.INT64⟩), ("y", ⟨ValueType_Enum.STRING⟩)]⟩⟩).JoinKeys =
          mapLookup k (NewEntityFromProto ⟨⟨"u", "j", ValueType_Enum.BYTES, [("y", ⟨ValueType_Enum.STRING⟩), ("x", ⟨ValueType_Enum.INT64⟩)]⟩⟩).JoinKeys) :=
  ⟨fun k => mapLookup_perm (by decide) (by decide) k,
    claim_C8 ⟨⟨"u", "j", ValueType_Enum.BYTES, [("x", ⟨ValueType_Enum.INT64⟩), ("y", ⟨ValueType_Enum.STRING⟩)]⟩⟩
      ⟨⟨"u", "j", ValueType_Enum.BYTES, [("y", ⟨ValueType_Enum.STRING⟩), ("x", ⟨ValueType_Enum.INT64⟩)]⟩⟩
      rfl rfl rfl (fun k => mapLookup_perm (by decide) (by decide) k)
      (by decide) (by decide)⟩

/-- Claim C9: the decoder leaves the input specification unchanged and
performs no effect besides constructing the fresh entity: in the
state-passing rendering, where the specification's state is threaded through
every step of the call, the specification component of the final state
equals the input specification, and the entity component is exactly
`NewEntityFromProto`'s result. -/
theorem claim_C9 (proto : CoreEntity) :
    (NewEntityFromProtoTraced proto).1 = proto.Spec ∧
      (NewEntityFromProtoTraced proto).2 = NewEntityFromProto proto := by
  by_cases hc : proto.Spec.JoinKeys.length > 0
  · simp only [NewEntityFromProtoTraced, NewEntityFromProto, if_pos hc]
    exact ⟨foldl_decodeStep_fst _ _ _, by rw [foldl_decodeStep_snd]⟩
  · simp only [NewEntityFromProtoTraced, NewEntityFromProto, if_neg hc]
    exact ⟨trivial, trivial⟩

/-- Claim C10: for every specification, the returned Entity model's
deprecated `JoinKey` field equals the specification's legacy `join_key`
field verbatim, in both the new-mapping path and the legacy path. -/
theorem claim_C10 (s : CoreEntity) :
    (NewEntityFromProto s).JoinKey = s.Spec.JoinKey :=
  decode_JoinKey s

end Feast
